import Mathlib

/-!
A shallow embedding of the knowledge-graph visualization engine
(`static/js/knowledge-graph.js` of the Space-BioLens repository),
with theorems verifying the specification's claims about it.

Numbers that are JavaScript floats are modelled as exact rationals (`ℚ`);
JavaScript `undefined`/missing fields are modelled as `Option`; JavaScript
truthiness of strings and numbers is modelled explicitly (empty string and
zero are falsy).  `Math.random()` draws are modelled as an oracle function
`ℕ → ℚ` giving the jitter of each successive call, constrained by the
hypotheses of the theorems that mention it.
-/

namespace SpaceBioLens

/-- Optional visualization hints of a raw experiment record (`exp.graphData`). -/
structure GraphData where
  size : Option ℚ
  connections : Option ℚ
deriving DecidableEq, Repr

/-- Optional link map of a record or node (`links.publications`, `links.datasets`,
`links.related`); each kind may be absent (`undefined`). -/
structure LinksMap where
  publications : Option (List String)
  datasets : Option (List String)
  related : Option (List String)
deriving DecidableEq, Repr

/-- Raw experiment record as served by `GET /api/experiments`. -/
structure ExperimentRecord where
  id : String
  title : String
  category : String
  status : String
  duration : String
  mission : Option String
  summary : Option String
  description : Option String
  graphData : Option GraphData
  links : Option LinksMap
deriving DecidableEq, Repr

/-- Graph node built by `initializeGraph`; `fx`/`fy` are the pinned-position
fields (absent = `null`/not pinned), `x`/`y` the current simulation position. -/
structure GNode where
  id : String
  title : String
  category : String
  status : String
  duration : String
  mission : Option String
  description : String
  size : ℚ
  connections : ℚ
  links : LinksMap
  x : ℚ
  y : ℚ
  fx : Option ℚ
  fy : Option ℚ
deriving DecidableEq, Repr

/-- Graph edge (`links.push({source, target})`): both fields are node ids. -/
structure GEdge where
  source : String
  target : String
deriving DecidableEq, Repr

/-- JavaScript truthiness of a possibly-absent string: `undefined` and `""`
are falsy. -/
def strTruthy : Option String → Bool
  | none => false
  | some s => s ≠ ""

/-- JavaScript `a || b` on possibly-absent strings. -/
def jsOrStr (a b : Option String) : Option String :=
  if strTruthy a then a else b

/-- JavaScript `a || d` where `a` is a possibly-absent number and `d` a
number literal: `undefined`, `null` and `0` are falsy. -/
def jsOrNum (a : Option ℚ) (d : ℚ) : ℚ :=
  match a with
  | none => d
  | some q => if q ≠ 0 then q else d

/-- Node construction of `initializeGraph` (the `experiments.map` body):
`description = exp.summary || exp.description || "No description available."`,
`size = exp.graphData?.size || 15`, `connections = exp.graphData?.connections || 3`,
`links = exp.links || {}`. -/
def buildNode (exp : ExperimentRecord) : GNode :=
  { id := exp.id
    title := exp.title
    category := exp.category
    status := exp.status
    duration := exp.duration
    mission := exp.mission
    description :=
      (jsOrStr (jsOrStr exp.summary exp.description)
        (some "No description available.")).getD ""
    size := jsOrNum (exp.graphData.bind GraphData.size) 15
    connections := jsOrNum (exp.graphData.bind GraphData.connections) 3
    links := exp.links.getD ⟨none, none, none⟩
    x := 0
    y := 0
    fx := none
    fy := none }

/-- Node list built by `initializeGraph` from the fetched records. -/
def buildNodes (exps : List ExperimentRecord) : List GNode :=
  exps.map buildNode

/-- Edge list built by `initializeGraph`: for each record's `links.related`
entries, one edge per related id, kept only when
`experiments.find(e => e.id === relatedId)` succeeds. -/
def buildEdges (exps : List ExperimentRecord) : List GEdge :=
  exps.flatMap (fun exp =>
    match exp.links with
    | none => []
    | some lm =>
      match lm.related with
      | none => []
      | some rels =>
        rels.filterMap (fun relatedId =>
          if exps.any (fun e => e.id == relatedId) then
            some ⟨exp.id, relatedId⟩
          else
            none))

/-- Category-filter selection shared by all three layouts (lines 75–81 of
`createForceLayout`): on `"all"` both lists pass through; otherwise nodes
are filtered by category and edges kept only when both endpoints are in the
filtered node id set. -/
def selectGraph (ns : List GNode) (es : List GEdge) (filter : String) :
    List GNode × List GEdge :=
  if filter = "all" then (ns, es)
  else
    let filteredNodes := ns.filter (fun n => n.category == filter)
    let nodeIds := filteredNodes.map GNode.id
    (filteredNodes,
      es.filter (fun l => nodeIds.contains l.source && nodeIds.contains l.target))

/-- Node-only filtering as repeated in `createRadialLayout` and
`createHierarchicalLayout`. -/
def filterNodes (ns : List GNode) (filter : String) : List GNode :=
  if filter = "all" then ns else ns.filter (fun n => n.category == filter)

theorem contains_map_id_iff (l : List GNode) (s : String) :
    ((l.map GNode.id).contains s = true) ↔ ∃ n ∈ l, n.id = s := by
  simp only [List.contains_eq_any_beq, List.any_eq_true, List.mem_map, beq_iff_eq]
  constructor
  · rintro ⟨x, ⟨n, hn, rfl⟩, rfl⟩
    exact ⟨n, hn, rfl⟩
  · rintro ⟨n, hn, rfl⟩
    exact ⟨n.id, ⟨n, hn, rfl⟩, rfl⟩

theorem selectGraph_fst (ns : List GNode) (es : List GEdge) (filter : String) :
    (selectGraph ns es filter).1 = filterNodes ns filter := by
  unfold selectGraph filterNodes
  by_cases h : filter = "all" <;> simp [h]

/-- C1: when the filter is "all" the selection returns the full node and edge
sets unchanged (same lists, hence same membership and order); when the filter
is a category C ≠ "all", it returns exactly the nodes whose category equals C
(in original order), and exactly the edges of the input whose source and
target both occur among the ids of the filtered node set, so an edge with
exactly one surviving endpoint is excluded. -/
theorem select_filter_spec (ns : List GNode) (es : List GEdge) (C : String) :
    selectGraph ns es "all" = (ns, es) ∧
    (C ≠ "all" →
      ((selectGraph ns es C).1 = ns.filter (fun n => n.category == C) ∧
       (∀ n : GNode, n ∈ (selectGraph ns es C).1 ↔ n ∈ ns ∧ n.category = C) ∧
       (∀ e : GEdge, e ∈ (selectGraph ns es C).2 ↔
          e ∈ es ∧
          (∃ n ∈ (selectGraph ns es C).1, n.id = e.source) ∧
          (∃ n ∈ (selectGraph ns es C).1, n.id = e.target)))) := by
  constructor
  · simp [selectGraph]
  · intro hC
    have h1 : (selectGraph ns es C).1 = ns.filter (fun n => n.category == C) := by
      simp [selectGraph, hC]
    have h2 : (selectGraph ns es C).2 = es.filter (fun l =>
        ((ns.filter (fun n => n.category == C)).map GNode.id).contains l.source &&
        ((ns.filter (fun n => n.category == C)).map GNode.id).contains l.target) := by
      simp [selectGraph, hC]
    refine ⟨h1, ?_, ?_⟩
    · intro n
      rw [h1]
      simp [List.mem_filter]
    · intro e
      rw [h2, h1, List.mem_filter]
      simp only [Bool.and_eq_true]
      constructor
      · rintro ⟨he, hs, ht⟩
        exact ⟨he, (contains_map_id_iff _ _).mp hs, (contains_map_id_iff _ _).mp ht⟩
      · rintro ⟨he, hs, ht⟩
        exact ⟨he, (contains_map_id_iff _ _).mpr hs, (contains_map_id_iff _ _).mpr ht⟩

/-- Sample node fixture used by concrete witnesses. -/
def mkNode (i c : String) : GNode :=
  { id := i, title := i, category := c, status := "active", duration := "6m"
    mission := none, description := "d", size := 15, connections := 3
    links := ⟨none, none, none⟩, x := 0, y := 0, fx := none, fy := none }

/-- Sample record fixture used by concrete witnesses. -/
def mkRec (i : String) (rel : List String) : ExperimentRecord :=
  { id := i, title := i, category := "microbiology", status := "active"
    duration := "6m", mission := none, summary := none, description := none
    graphData := none, links := some ⟨none, none, some rel⟩ }

/-- Witness for `select_filter_spec` at the spec's own example: nodes
1,2,3 with categories A,B,A; filter A keeps node 1. -/
theorem select_filter_spec_witness :
    ("A" : String) ≠ "all" ∧
    (mkNode "1" "A" ∈
        (selectGraph [mkNode "1" "A", mkNode "2" "B", mkNode "3" "A"]
          [⟨"1", "2"⟩, ⟨"1", "3"⟩] "A").1 ↔
      mkNode "1" "A" ∈ [mkNode "1" "A", mkNode "2" "B", mkNode "3" "A"] ∧
        (mkNode "1" "A").category = "A") :=
  ⟨by decide,
    ((select_filter_spec [mkNode "1" "A", mkNode "2" "B", mkNode "3" "A"]
        [⟨"1", "2"⟩, ⟨"1", "3"⟩] "A").2 (by decide)).2.1 (mkNode "1" "A")⟩

theorem buildNodes_map_id (exps : List ExperimentRecord) :
    (buildNodes exps).map GNode.id = exps.map ExperimentRecord.id := by
  unfold buildNodes
  rw [List.map_map]
  rfl

theorem mem_buildEdges (exps : List ExperimentRecord) (e : GEdge)
    (he : e ∈ buildEdges exps) :
    (∃ exp ∈ exps, exp.id = e.source) ∧ (∃ r ∈ exps, r.id = e.target) := by
  unfold buildEdges at he
  rw [List.mem_flatMap] at he
  obtain ⟨exp, hexp, hin⟩ := he
  split at hin
  · simp at hin
  · split at hin
    · simp at hin
    · rw [List.mem_filterMap] at hin
      obtain ⟨rid, _, hif⟩ := hin
      by_cases hany : exps.any (fun r => r.id == rid) = true
      · rw [if_pos hany] at hif
        obtain rfl := Option.some_injective _ hif
        rw [List.any_eq_true] at hany
        obtain ⟨r, hrmem, hbeq⟩ := hany
        exact ⟨⟨exp, hexp, rfl⟩, ⟨r, hrmem, beq_iff_eq.mp hbeq⟩⟩
      · rw [if_neg hany] at hif
        exact absurd hif (by simp)

/-- C2: every edge produced by the data-adapter step has both its source id
and its target id among the ids of the nodes built from the same record
list; a related id matching no record's id never appears as an edge target
(so unmatched ids produce no edge). -/
theorem adapter_edges_closed (exps : List ExperimentRecord) :
    (∀ e ∈ buildEdges exps,
        e.source ∈ (buildNodes exps).map GNode.id ∧
        e.target ∈ (buildNodes exps).map GNode.id) ∧
    (∀ rid : String, (∀ r ∈ exps, r.id ≠ rid) →
        ∀ e ∈ buildEdges exps, e.target ≠ rid) := by
  constructor
  · intro e he
    obtain ⟨⟨exp, hexp, hs⟩, ⟨r, hr, ht⟩⟩ := mem_buildEdges exps e he
    rw [buildNodes_map_id]
    exact ⟨hs ▸ List.mem_map_of_mem ExperimentRecord.id hexp,
      ht ▸ List.mem_map_of_mem ExperimentRecord.id hr⟩
  · intro rid hnone e he
    obtain ⟨_, ⟨r, hr, ht⟩⟩ := mem_buildEdges exps e he
    intro hcontra
    exact hnone r hr (hcontra ▸ ht)

/-- Witness for `adapter_edges_closed`: two records where "a" relates to
"b" (matched, edge kept) and to "zzz" (unmatched, no edge). -/
theorem adapter_edges_closed_witness :
    (⟨"a", "b"⟩ : GEdge) ∈ buildEdges [mkRec "a" ["b", "zzz"], mkRec "b" []] ∧
    ("a" ∈ (buildNodes [mkRec "a" ["b", "zzz"], mkRec "b" []]).map GNode.id ∧
     "b" ∈ (buildNodes [mkRec "a" ["b", "zzz"], mkRec "b" []]).map GNode.id) :=
  ⟨by decide,
    (adapter_edges_closed [mkRec "a" ["b", "zzz"], mkRec "b" []]).1
      ⟨"a", "b"⟩ (by decide)⟩

/-- C10: the data-adapter defaults trigger on any falsy value, not only on
absence — `graphData.size` of 0 yields 15 exactly as if omitted,
`graphData.connections` of 0 yields 3 exactly as if omitted, and an
empty-string summary falls through to the description, or to the fallback
text when the description is absent, exactly as if the summary were
omitted. -/
theorem falsy_defaults (r : ExperimentRecord) (gd : GraphData) :
    (buildNode { r with graphData := some { gd with size := some 0 } } =
      buildNode { r with graphData := some { gd with size := none } }) ∧
    ((buildNode { r with graphData := some { gd with size := some 0 } }).size = 15) ∧
    (buildNode { r with graphData := some { gd with connections := some 0 } } =
      buildNode { r with graphData := some { gd with connections := none } }) ∧
    ((buildNode { r with graphData := some { gd with connections := some 0 } }).connections = 3) ∧
    (buildNode { r with summary := some "" } = buildNode { r with summary := none }) ∧
    ((buildNode { r with summary := some "", description := none }).description =
      "No description available.") ∧
    (∀ d : String, d ≠ "" →
      (buildNode { r with summary := some "", description := some d }).description = d) := by
  refine ⟨?_, ?_, ?_, ?_, ?_, ?_, ?_⟩
  · simp [buildNode, jsOrNum]
  · simp [buildNode, jsOrNum]
  · simp [buildNode, jsOrNum]
  · simp [buildNode, jsOrNum]
  · simp [buildNode, jsOrStr, strTruthy]
  · simp [buildNode, jsOrStr, strTruthy]
  · intro d hd
    simp [buildNode, jsOrStr, strTruthy, hd]

/-- Witness for `falsy_defaults` at a concrete record and a non-empty
description string. -/
theorem falsy_defaults_witness :
    ("desc" : String) ≠ "" ∧
    (buildNode { mkRec "a" [] with summary := some "", description := some "desc" }).description
      = "desc" :=
  ⟨by decide, (falsy_defaults (mkRec "a" []) ⟨none, none⟩).2.2.2.2.2.2 "desc" (by decide)⟩

/-- First-seen-order deduplication, the semantics of the JavaScript
idiom `[...new Set(list)]` used by the radial and hierarchical layouts. -/
def dedupFirst : List String → List String
  | [] => []
  | a :: rest => a :: (dedupFirst rest).filter (fun b => b ≠ a)

theorem mem_dedupFirst (l : List String) (x : String) :
    x ∈ dedupFirst l ↔ x ∈ l := by
  induction l with
  | nil => simp [dedupFirst]
  | cons a rest ih =>
    simp only [dedupFirst, List.mem_cons, List.mem_filter, ih]
    by_cases hx : x = a
    · simp [hx]
    · simp [hx]

theorem nodup_dedupFirst (l : List String) : (dedupFirst l).Nodup := by
  induction l with
  | nil => simp [dedupFirst]
  | cons a rest ih =>
    refine List.Nodup.cons ?_ (List.Nodup.filter _ ih)
    intro hmem
    rw [List.mem_filter] at hmem
    simp at hmem

/-- Entry of the radial layout in polar form: the category index and the
radial distance determine the pinned position as
`center + (radius·cos(catIndex·2π/k), radius·sin(catIndex·2π/k))`. -/
structure RadialEntry where
  node : GNode
  catIndex : ℕ
  radius : ℚ
deriving DecidableEq, Repr

/-- Category list of a filtered node set in first-seen order, the
`[...new Set(filteredNodes.map(n => n.category))]` of both static layouts. -/
def graphCategories (fns : List GNode) : List String :=
  dedupFirst (fns.map GNode.category)

/-- Radial layout of `createRadialLayout`: categories of the filtered node
set in first-seen order, angle index = `categories.indexOf(node.category)`,
radius = `200 + Math.random() * 100` where the successive `Math.random()*100`
draws are modelled by the oracle `jitter` (one draw per node, in order). -/
def createRadialLayout (ns : List GNode) (filter : String) (jitter : ℕ → ℚ) :
    List RadialEntry :=
  let filteredNodes := filterNodes ns filter
  let categories := graphCategories filteredNodes
  filteredNodes.enum.map (fun p =>
    ⟨p.2, categories.indexOf p.2.category, 200 + jitter p.1⟩)

theorem indexOf_getElem_of_nodup {l : List String} (h : l.Nodup)
    (i : ℕ) (hi : i < l.length) : l.indexOf l[i] = i :=
  List.indexOf_getElem h i hi

theorem catIndex_image_eq_range (fns : List GNode) :
    (fns.map (fun n => (graphCategories fns).indexOf n.category)).toFinset
      = Finset.range (graphCategories fns).length := by
  ext i
  simp only [List.mem_toFinset, List.mem_map, Finset.mem_range]
  constructor
  · rintro ⟨n, hn, rfl⟩
    rw [List.indexOf_lt_length]
    unfold graphCategories
    rw [mem_dedupFirst]
    exact List.mem_map_of_mem GNode.category hn
  · intro hi
    have hmem : (graphCategories fns)[i] ∈ graphCategories fns :=
      List.getElem_mem hi
    unfold graphCategories at hmem
    rw [mem_dedupFirst, List.mem_map] at hmem
    obtain ⟨n, hn, hcat⟩ := hmem
    refine ⟨n, hn, ?_⟩
    rw [hcat]
    exact indexOf_getElem_of_nodup (nodup_dedupFirst _) i hi

theorem toFinset_map_list {α β : Type} [DecidableEq α] [DecidableEq β]
    (l : List α) (f : α → β) : (l.map f).toFinset = l.toFinset.image f := by
  ext b
  simp

theorem graphCategories_ne_nil {fns : List GNode} (h : fns ≠ []) :
    graphCategories fns ≠ [] := by
  cases fns with
  | nil => exact absurd rfl h
  | cons a t => simp [graphCategories, dedupFirst]

/-- Mapping a function of the category index over the radial layout is the
same as mapping it over the filtered nodes directly. -/
theorem createRadialLayout_map {α : Type} (ns : List GNode) (filter : String)
    (jitter : ℕ → ℚ) (F : ℕ → α) :
    (createRadialLayout ns filter jitter).map (fun p => F p.catIndex)
      = (filterNodes ns filter).map
          (fun n => F ((graphCategories (filterNodes ns filter)).indexOf n.category)) := by
  simp only [createRadialLayout]
  generalize graphCategories (filterNodes ns filter) = c
  rw [List.map_map]
  conv_rhs => rw [← List.enum_map_snd (filterNodes ns filter), List.map_map]
  rfl

/-- C6: for a non-empty filtered node set with k distinct categories in
first-seen order, the radial layout gives each node the angle index
`categories.indexOf(node.category)` (so its angle is catIndex·(2π/k)) and a
radial distance 200 + jitter with jitter in [0,100); the set of assigned
angles is exactly the k evenly spaced multiples i·(2π/k) for i < k, with
exactly k distinct values, independent of how many nodes share a
category. -/
theorem radial_angle_spec (ns : List GNode) (filter : String) (jitter : ℕ → ℚ)
    (hne : filterNodes ns filter ≠ [])
    (hj : ∀ i, 0 ≤ jitter i ∧ jitter i < 100) :
    (∀ p ∈ createRadialLayout ns filter jitter,
        p.catIndex = (graphCategories (filterNodes ns filter)).indexOf p.node.category ∧
        200 ≤ p.radius ∧ p.radius < 300) ∧
    ((createRadialLayout ns filter jitter).map
        (fun p => (p.catIndex : ℝ) *
          (2 * Real.pi / (graphCategories (filterNodes ns filter)).length))).toFinset
      = (Finset.range (graphCategories (filterNodes ns filter)).length).image
          (fun (i : ℕ) => (i : ℝ) *
            (2 * Real.pi / (graphCategories (filterNodes ns filter)).length)) ∧
    ((createRadialLayout ns filter jitter).map
        (fun p => (p.catIndex : ℝ) *
          (2 * Real.pi / (graphCategories (filterNodes ns filter)).length))).toFinset.card
      = (graphCategories (filterNodes ns filter)).length := by
  have hk : 0 < (graphCategories (filterNodes ns filter)).length :=
    List.length_pos.mpr (graphCategories_ne_nil hne)
  have hstep : (2 * Real.pi / (graphCategories (filterNodes ns filter)).length) ≠ 0 :=
    div_ne_zero (mul_ne_zero two_ne_zero Real.pi_ne_zero)
      (Nat.cast_ne_zero.mpr (Nat.pos_iff_ne_zero.mp hk))
  have hmap :
      (createRadialLayout ns filter jitter).map
          (fun p => (p.catIndex : ℝ) *
            (2 * Real.pi / (graphCategories (filterNodes ns filter)).length))
        = ((filterNodes ns filter).map
            (fun n => (graphCategories (filterNodes ns filter)).indexOf n.category)).map
              (fun (i : ℕ) => (i : ℝ) *
                (2 * Real.pi / (graphCategories (filterNodes ns filter)).length)) := by
    rw [List.map_map]
    exact createRadialLayout_map ns filter jitter
      (fun (i : ℕ) => (i : ℝ) * (2 * Real.pi / (graphCategories (filterNodes ns filter)).length))
  have himg :
      ((createRadialLayout ns filter jitter).map
          (fun p => (p.catIndex : ℝ) *
            (2 * Real.pi / (graphCategories (filterNodes ns filter)).length))).toFinset
        = (Finset.range (graphCategories (filterNodes ns filter)).length).image
            (fun (i : ℕ) => (i : ℝ) *
              (2 * Real.pi / (graphCategories (filterNodes ns filter)).length)) := by
    rw [hmap, toFinset_map_list, catIndex_image_eq_range]
  refine ⟨?_, himg, ?_⟩
  · intro p hp
    simp only [createRadialLayout, List.mem_map] at hp
    obtain ⟨q, _, rfl⟩ := hp
    refine ⟨rfl, ?_, ?_⟩
    · have := (hj q.1).1
      simp only
      linarith
    · have := (hj q.1).2
      simp only
      linarith
  · rw [himg]
    rw [Finset.card_image_of_injOn, Finset.card_range]
    intro i _ j _ hij
    have : (i : ℝ) = j :=
      mul_right_cancel₀ hstep hij
    exact_mod_cast this

/-- Witness for `radial_angle_spec`: two nodes in two categories, filter
"all", constant jitter 50 — the angle set has exactly two values. -/
theorem radial_angle_spec_witness :
    filterNodes [mkNode "1" "A", mkNode "2" "B"] "all" ≠ [] ∧
    ((createRadialLayout [mkNode "1" "A", mkNode "2" "B"] "all" (fun _ => 50)).map
        (fun p => (p.catIndex : ℝ) *
          (2 * Real.pi /
            (graphCategories
              (filterNodes [mkNode "1" "A", mkNode "2" "B"] "all")).length))).toFinset.card
      = (graphCategories (filterNodes [mkNode "1" "A", mkNode "2" "B"] "all")).length :=
  ⟨by decide,
    (radial_angle_spec [mkNode "1" "A", mkNode "2" "B"] "all" (fun _ => 50)
      (by decide) (fun i => by norm_num)).2.2⟩

/-- Entry of the hierarchical layout: the node with its pinned position. -/
structure HierEntry where
  node : GNode
  fx : ℚ
  fy : ℚ
deriving DecidableEq, Repr

/-- One column of the hierarchical layout (the body of the outer
`categories.forEach`): the members of category `ci.2` (column index `ci.1`)
as evenly spaced rows. -/
def hierColumn (fns : List GNode) (columnWidth height : ℚ) (ci : ℕ × String) :
    List HierEntry :=
  let categoryNodes := fns.filter (fun n => n.category == ci.2)
  let rowHeight := height / ((categoryNodes.length : ℚ) + 1)
  categoryNodes.enum.map (fun ni =>
    ⟨ni.2, columnWidth * ((ci.1 : ℚ) + 1), rowHeight * ((ni.1 : ℚ) + 1)⟩)

/-- Hierarchical layout of `createHierarchicalLayout`: categories become
columns at x = width/(k+1)·(colIndex+1); within a category the members
become rows at y = height/(m+1)·(rowIndex+1). -/
def createHierarchicalLayout (ns : List GNode) (filter : String)
    (width height : ℚ) : List HierEntry :=
  let filteredNodes := filterNodes ns filter
  let categories := graphCategories filteredNodes
  let columnWidth := width / ((categories.length : ℚ) + 1)
  categories.enum.flatMap (hierColumn filteredNodes columnWidth height)

theorem enum_mem_spec {α : Type} {l : List α} {p : ℕ × α} (hp : p ∈ l.enum) :
    ∃ h : p.1 < l.length, l[p.1] = p.2 := by
  obtain ⟨idx, hidx, heq⟩ := List.getElem_of_mem hp
  have hlen : idx < l.length := by
    have := List.enum_length (l := l)
    omega
  rw [List.getElem_enum] at heq
  rw [← heq]
  exact ⟨hlen, rfl⟩

theorem nodup_graphCategories (fns : List GNode) : (graphCategories fns).Nodup :=
  nodup_dedupFirst _

theorem indexOf_enum_graphCategories (fns : List GNode) {ci : ℕ × String}
    (hci : ci ∈ (graphCategories fns).enum) :
    (graphCategories fns).indexOf ci.2 = ci.1 := by
  obtain ⟨hlt, hget⟩ := enum_mem_spec hci
  rw [← hget]
  exact indexOf_getElem_of_nodup (nodup_graphCategories fns) ci.1 hlt

theorem pairwise_fst_lt_enum {α : Type} (l : List α) :
    List.Pairwise (fun p q => p.1 < q.1) l.enum := by
  have h := List.pairwise_lt_range l.length
  rw [← List.enum_map_fst l] at h
  exact List.pairwise_map.mp h

theorem mem_hierColumn {fns : List GNode} {cw h : ℚ} {ci : ℕ × String}
    {e : HierEntry} (he : e ∈ hierColumn fns cw h ci) :
    ∃ ni ∈ (fns.filter (fun n => n.category == ci.2)).enum,
      e = ⟨ni.2, cw * ((ci.1 : ℚ) + 1),
        (h / (((fns.filter (fun n => n.category == ci.2)).length : ℚ) + 1)) *
          ((ni.1 : ℚ) + 1)⟩ := by
  simp only [hierColumn, List.mem_map] at he
  obtain ⟨ni, hni, rfl⟩ := he
  exact ⟨ni, hni, rfl⟩

theorem hierColumn_node_cat {fns : List GNode} {cw h : ℚ} {ci : ℕ × String}
    {e : HierEntry} (he : e ∈ hierColumn fns cw h ci) :
    e.node.category = ci.2 := by
  obtain ⟨ni, hni, rfl⟩ := mem_hierColumn he
  obtain ⟨hlt, hget⟩ := enum_mem_spec hni
  have hmem : ni.2 ∈ fns.filter (fun n => n.category == ci.2) := by
    rw [← hget]
    exact List.getElem_mem hlt
  rw [List.mem_filter] at hmem
  exact beq_iff_eq.mp hmem.2

theorem pairwise_fy_hierColumn {fns : List GNode} {cw h : ℚ} {ci : ℕ × String}
    (hh : 0 < h) :
    List.Pairwise (fun e1 e2 => e1.fy ≠ e2.fy) (hierColumn fns cw h ci) := by
  unfold hierColumn
  rw [List.pairwise_map]
  refine (pairwise_fst_lt_enum _).imp ?_
  intro a b hab
  have hrh : 0 < h / (((fns.filter (fun n => n.category == ci.2)).length : ℚ) + 1) :=
    div_pos hh (by positivity)
  have hlt : ((a.1 : ℚ) + 1) < ((b.1 : ℚ) + 1) := by
    have : (a.1 : ℚ) < (b.1 : ℚ) := by exact_mod_cast hab
    linarith
  exact ne_of_lt (mul_lt_mul_of_pos_left hlt hrh)

/-- C5: for every filtered node set and a viewport of positive height, the
hierarchical layout pins each node of the category with column index c (in
first-seen order) at x = width/(k+1)·(c+1), and pins each member of a
category with m members at y = height/(m+1)·(rowIndex+1) for some row
index < m; hence all nodes sharing a category receive the same x, and no
two distinct entries of the layout with the same category receive the same
y (in particular whenever a category has at least 2 members). -/
theorem hier_layout_spec (ns : List GNode) (filter : String) (w h : ℚ)
    (hh : 0 < h) :
    (∀ e ∈ createHierarchicalLayout ns filter w h,
        e.fx = w / (((graphCategories (filterNodes ns filter)).length : ℚ) + 1) *
          (((graphCategories (filterNodes ns filter)).indexOf e.node.category : ℚ) + 1)) ∧
    (∀ e ∈ createHierarchicalLayout ns filter w h,
        ∃ r : ℕ,
          r < ((filterNodes ns filter).filter
                (fun n => n.category == e.node.category)).length ∧
          e.fy = h / ((((filterNodes ns filter).filter
                (fun n => n.category == e.node.category)).length : ℚ) + 1) *
              ((r : ℚ) + 1)) ∧
    (∀ e1 ∈ createHierarchicalLayout ns filter w h,
      ∀ e2 ∈ createHierarchicalLayout ns filter w h,
        e1.node.category = e2.node.category → e1.fx = e2.fx) ∧
    List.Pairwise
      (fun e1 e2 => e1.node.category = e2.node.category → e1.fy ≠ e2.fy)
      (createHierarchicalLayout ns filter w h) := by
  have hmem : ∀ e ∈ createHierarchicalLayout ns filter w h,
      ∃ ci ∈ (graphCategories (filterNodes ns filter)).enum,
        e ∈ hierColumn (filterNodes ns filter)
          (w / (((graphCategories (filterNodes ns filter)).length : ℚ) + 1)) h ci := by
    intro e he
    simp only [createHierarchicalLayout, List.mem_flatMap] at he
    exact he
  have hfx : ∀ e ∈ createHierarchicalLayout ns filter w h,
      e.fx = w / (((graphCategories (filterNodes ns filter)).length : ℚ) + 1) *
        (((graphCategories (filterNodes ns filter)).indexOf e.node.category : ℚ) + 1) := by
    intro e he
    obtain ⟨ci, hci, hin⟩ := hmem e he
    have hcat : e.node.category = ci.2 := hierColumn_node_cat hin
    obtain ⟨ni, _, rfl⟩ := mem_hierColumn hin
    simp only
    rw [hcat, indexOf_enum_graphCategories _ hci]
  refine ⟨hfx, ?_, ?_, ?_⟩
  · intro e he
    obtain ⟨ci, hci, hin⟩ := hmem e he
    have hcat : e.node.category = ci.2 := hierColumn_node_cat hin
    obtain ⟨ni, hni, rfl⟩ := mem_hierColumn hin
    obtain ⟨hlt, _⟩ := enum_mem_spec hni
    refine ⟨ni.1, ?_, ?_⟩
    · simp only at hcat
      rw [hcat]
      exact hlt
    · simp only at hcat
      rw [hcat]
  · intro e1 he1 e2 he2 hcat
    rw [hfx e1 he1, hfx e2 he2, hcat]
  · have hflat : createHierarchicalLayout ns filter w h =
        ((graphCategories (filterNodes ns filter)).enum.map
          (hierColumn (filterNodes ns filter)
            (w / (((graphCategories (filterNodes ns filter)).length : ℚ) + 1)) h)).flatten :=
      rfl
    rw [hflat, List.pairwise_flatten]
    constructor
    · intro l hl
      rw [List.mem_map] at hl
      obtain ⟨ci, _, rfl⟩ := hl
      refine (pairwise_fy_hierColumn hh).imp ?_
      intro a b hne _
      exact hne
    · rw [List.pairwise_map]
      have hnd : List.Pairwise (fun a b => a.2 ≠ b.2)
          (graphCategories (filterNodes ns filter)).enum := by
        have h0 : List.Pairwise (fun a b => a ≠ b)
            (graphCategories (filterNodes ns filter)) :=
          nodup_graphCategories (filterNodes ns filter)
        rw [← List.enum_map_snd (graphCategories (filterNodes ns filter))] at h0
        exact List.pairwise_map.mp h0
      refine hnd.imp ?_
      intro ci cj hne x hx y hy hcat
      apply absurd ?_ hne
      rw [← hierColumn_node_cat hx, ← hierColumn_node_cat hy]
      exact hcat

/-- Witness for `hier_layout_spec`: three nodes, categories A,A,B, filter
"all", viewport 800×600 — entries of the same category get distinct rows. -/
theorem hier_layout_spec_witness :
    (0 : ℚ) < 600 ∧
    List.Pairwise
      (fun e1 e2 => e1.node.category = e2.node.category → e1.fy ≠ e2.fy)
      (createHierarchicalLayout
        [mkNode "1" "A", mkNode "2" "A", mkNode "3" "B"] "all" 800 600) :=
  ⟨by norm_num,
    (hier_layout_spec [mkNode "1" "A", mkNode "2" "A", mkNode "3" "B"]
      "all" 800 600 (by norm_num)).2.2.2⟩

/-- Kind of a rendered SVG element of the graph scene. -/
inductive SceneElem
  | line
  | circle
  | label
deriving DecidableEq, Repr

/-- Scene clearing, `g.selectAll("*").remove()`. -/
def clearScene (_s : List SceneElem) : List SceneElem := []

/-- Rendering of `drawStaticLayout`: one circle and one label per filtered
node and no line elements (the static layouts draw no edges). -/
def drawStaticLayout (filteredNodes : List GNode) : List SceneElem :=
  List.replicate filteredNodes.length SceneElem.circle ++
    List.replicate filteredNodes.length SceneElem.label

/-- Un-pinning of one node, the body of line 85:
`node.fx = null; node.fy = null`. -/
def clearPin (n : GNode) : GNode := { n with fx := none, fy := none }

/-- Result of `createForceLayout`: the global node array after the pin
clearing of line 85 (which mutates exactly the members of the filtered
node list, aliased into the global array), the node and link lists handed
to `d3.forceSimulation`, and the freshly drawn scene (lines, then circles,
then labels, after clearing). -/
structure ForceLayoutResult where
  globalNodes : List GNode
  simNodes : List GNode
  simLinks : List GEdge
  scene : List SceneElem
deriving DecidableEq, Repr

def createForceLayout (prev : List SceneElem) (ns : List GNode)
    (es : List GEdge) (filter : String) : ForceLayoutResult :=
  let fd := selectGraph ns es filter
  let cleared := fd.1.map clearPin
  { globalNodes := ns.map (fun n =>
      if filter = "all" ∨ n.category = filter then clearPin n else n)
    simNodes := cleared
    simLinks := fd.2
    scene := clearScene prev ++
      List.replicate fd.2.length SceneElem.line ++
      List.replicate cleared.length SceneElem.circle ++
      List.replicate cleared.length SceneElem.label }

/-- Scene produced by `createRadialLayout`: clear, position, then
`drawStaticLayout(filteredNodes)`. -/
def createRadialScene (prev : List SceneElem) (ns : List GNode)
    (filter : String) : List SceneElem :=
  clearScene prev ++ drawStaticLayout (filterNodes ns filter)

/-- Scene produced by `createHierarchicalLayout`: clear, position, then
`drawStaticLayout(filteredNodes)`. -/
def createHierarchicalScene (prev : List SceneElem) (ns : List GNode)
    (filter : String) : List SceneElem :=
  clearScene prev ++ drawStaticLayout (filterNodes ns filter)

/-- Current layout mode (`currentLayout`). -/
inductive LayoutMode
  | force
  | radial
  | hierarchical
deriving DecidableEq, Repr

/-- Scene produced by `updateLayout` after a filter or layout-mode change:
any running simulation is stopped and the selected layout redraws the
scene in full. -/
def updateLayoutScene (prev : List SceneElem) (mode : LayoutMode)
    (ns : List GNode) (es : List GEdge) (filter : String) : List SceneElem :=
  match mode with
  | .force => (createForceLayout prev ns es filter).scene
  | .radial => createRadialScene prev ns filter
  | .hierarchical => createHierarchicalScene prev ns filter

/-- Shared counting lemma for the scene of every mode: circles and labels
match the filtered node count; line elements appear only in force mode
(one per filtered edge); the result never depends on the prior scene. -/
theorem updateLayoutScene_counts (prev : List SceneElem) (mode : LayoutMode)
    (ns : List GNode) (es : List GEdge) (filter : String) :
    (updateLayoutScene prev mode ns es filter).count SceneElem.circle
      = (filterNodes ns filter).length ∧
    (updateLayoutScene prev mode ns es filter).count SceneElem.label
      = (filterNodes ns filter).length ∧
    (updateLayoutScene prev mode ns es filter).count SceneElem.line
      = (if mode = LayoutMode.force then (selectGraph ns es filter).2.length else 0) ∧
    updateLayoutScene prev mode ns es filter
      = updateLayoutScene [] mode ns es filter := by
  cases mode <;>
    simp [updateLayoutScene, createForceLayout, createRadialScene,
      createHierarchicalScene, drawStaticLayout, clearScene, selectGraph_fst,
      List.count_append, List.count_replicate]

/-- Counterexample to C4 as stated: with two same-category nodes joined by
one edge and filter "all", the radial layout's rendered line count is 0,
not the filtered edge count 1 — the static layouts draw no edge
elements. -/
theorem render_counts_counterexample :
    (updateLayoutScene [] LayoutMode.radial
        [mkNode "1" "A", mkNode "2" "A"] [⟨"1", "2"⟩] "all").count SceneElem.line = 0 ∧
    (selectGraph [mkNode "1" "A", mkNode "2" "A"] [⟨"1", "2"⟩] "all").2.length = 1 := by
  constructor
  · decide
  · decide

/-- C4 (amended): switching layout mode fully replaces the prior rendered
content — the resulting scene is independent of the previous scene, and
the rendered circle and label counts equal the filtered node count in
every mode; the force layout renders one line element per filtered edge,
while the radial and hierarchical layouts render no line elements at
all. -/
theorem render_counts_spec (prev : List SceneElem) (mode : LayoutMode)
    (ns : List GNode) (es : List GEdge) (filter : String) :
    (updateLayoutScene prev mode ns es filter).count SceneElem.circle
      = (filterNodes ns filter).length ∧
    (updateLayoutScene prev mode ns es filter).count SceneElem.label
      = (filterNodes ns filter).length ∧
    (updateLayoutScene prev mode ns es filter).count SceneElem.line
      = (if mode = LayoutMode.force then (selectGraph ns es filter).2.length else 0) ∧
    updateLayoutScene prev mode ns es filter
      = updateLayoutScene [] mode ns es filter :=
  updateLayoutScene_counts prev mode ns es filter

/-- Fixture: a node pinned at (5,6) whose category is "plant-studies". -/
def pinnedNode : GNode :=
  { mkNode "p" "plant-studies" with fx := some 5, fy := some 6 }

/-- Counterexample to C3 as stated: restarting the force layout with filter
"microbiology" leaves the pin of the (not drag-pinned) "plant-studies"
node in place — the pin fields of nodes outside the filtered set are not
cleared. -/
theorem pin_clear_counterexample :
    ∃ n ∈ (createForceLayout [] [pinnedNode] [] "microbiology").globalNodes,
      n.fx ≠ none ∧ n.fy ≠ none := by
  decide

/-- C3 (amended): on every (re)start of the force layout — including the
switch of layout mode into force, whose dispatch is exactly
`createForceLayout` — the pin fields of every node of the filtered node
set are cleared unconditionally before the simulation is built (there is
no exception for an in-progress drag), every node handed to the simulation
is unpinned, and nodes outside the filtered set keep their previous
state. -/
theorem pin_clear_spec (prev : List SceneElem) (ns : List GNode)
    (es : List GEdge) (filter : String) :
    (∀ n ∈ (createForceLayout prev ns es filter).simNodes,
        n.fx = none ∧ n.fy = none) ∧
    (∀ n ∈ (createForceLayout prev ns es filter).globalNodes,
        (filter = "all" ∨ n.category = filter) → n.fx = none ∧ n.fy = none) ∧
    (∀ n ∈ ns, filter ≠ "all" → n.category ≠ filter →
        n ∈ (createForceLayout prev ns es filter).globalNodes) ∧
    updateLayoutScene prev LayoutMode.force ns es filter
      = (createForceLayout prev ns es filter).scene := by
  refine ⟨?_, ?_, ?_, rfl⟩
  · intro n hn
    simp only [createForceLayout, List.mem_map] at hn
    obtain ⟨m, _, rfl⟩ := hn
    exact ⟨rfl, rfl⟩
  · intro n hn hsel
    simp only [createForceLayout, List.mem_map] at hn
    obtain ⟨m, _, rfl⟩ := hn
    by_cases hc : filter = "all" ∨ m.category = filter
    · rw [if_pos hc]
      exact ⟨rfl, rfl⟩
    · rw [if_neg hc] at hsel ⊢
      exact absurd hsel hc
  · intro n hn hne hcat
    simp only [createForceLayout, List.mem_map]
    refine ⟨n, hn, ?_⟩
    rw [if_neg ?_]
    push_neg
    exact ⟨hne, hcat⟩

/-- Witness for `pin_clear_spec`: with filter "all" the pinned fixture node
reaches the simulation with both pin fields cleared. -/
theorem pin_clear_spec_witness :
    clearPin pinnedNode ∈ (createForceLayout [] [pinnedNode] [] "all").simNodes ∧
    (clearPin pinnedNode).fx = none ∧ (clearPin pinnedNode).fy = none :=
  ⟨by decide,
    (pin_clear_spec [] [pinnedNode] [] "all").1 (clearPin pinnedNode) (by decide)⟩

/-- C9: a filter whose filtered node set is empty yields an empty radial
layout, an empty hierarchical layout, an empty simulation node list, and a
scene with zero circles and labels in every mode; all three layout
operations are total functions, so no error is possible. -/
theorem empty_filter_spec (ns : List GNode) (es : List GEdge) (filter : String)
    (prev : List SceneElem) (jitter : ℕ → ℚ) (w h : ℚ)
    (hempty : filterNodes ns filter = []) :
    createRadialLayout ns filter jitter = [] ∧
    createHierarchicalLayout ns filter w h = [] ∧
    (createForceLayout prev ns es filter).simNodes = [] ∧
    (∀ mode : LayoutMode,
        (updateLayoutScene prev mode ns es filter).count SceneElem.circle = 0 ∧
        (updateLayoutScene prev mode ns es filter).count SceneElem.label = 0) := by
  refine ⟨?_, ?_, ?_, ?_⟩
  · simp [createRadialLayout, hempty]
  · simp [createHierarchicalLayout, hempty, graphCategories, dedupFirst]
  · simp only [createForceLayout]
    rw [selectGraph_fst, hempty]
    rfl
  · intro mode
    obtain ⟨h1, h2, _, _⟩ := updateLayoutScene_counts prev mode ns es filter
    rw [h1, h2, hempty]
    exact ⟨rfl, rfl⟩

/-- Witness for `empty_filter_spec`: one "plant-studies" node filtered by
"microbiology" gives an empty radial layout. -/
theorem empty_filter_spec_witness :
    filterNodes [mkNode "p" "plant-studies"] "microbiology" = [] ∧
    createRadialLayout [mkNode "p" "plant-studies"] "microbiology" (fun _ => 50) = [] :=
  ⟨by decide,
    (empty_filter_spec [mkNode "p" "plant-studies"] [] "microbiology" []
      (fun _ => 50) 800 600 (by decide)).1⟩

/-- Effect of `dragstarted` on the dragged node's datum:
`d.fx = d.x; d.fy = d.y` (pin at current position). -/
def dragstartedNode (d : GNode) : GNode := { d with fx := some d.x, fy := some d.y }

/-- Effect of `dragged`: `d.fx = event.x; d.fy = event.y` (pin follows the
pointer). -/
def draggedNode (px py : ℚ) (d : GNode) : GNode := { d with fx := some px, fy := some py }

/-- Effect of `dragended` on the node's datum: the handler only lowers
`simulation.alphaTarget` and touches no field of `d`. -/
def dragendedNode (d : GNode) : GNode := d

/-- Simulation temperature target, the only state `dragended` changes. -/
structure SimTemp where
  alphaTarget : ℚ
deriving DecidableEq, Repr

/-- Temperature effect of `dragstarted`:
`if (!event.active && simulation) simulation.alphaTarget(0.3).restart()`. -/
def dragstartedSim (active : Bool) (s : SimTemp) : SimTemp :=
  if active then s else ⟨3 / 10⟩

/-- Temperature effect of `dragended`:
`if (!event.active && simulation) simulation.alphaTarget(0)`. -/
def dragendedSim (active : Bool) (s : SimTemp) : SimTemp :=
  if active then s else ⟨0⟩

/-- C7: the sequence drag-start, drag-move to (px,py), drag-end leaves the
node pinned at exactly fx = px and fy = py; the drag-end handler changes
no field of the node at all (it only lowers the simulation temperature),
so the pin persists after release. -/
theorem drag_pin_spec (d : GNode) (px py : ℚ) :
    (dragendedNode (draggedNode px py (dragstartedNode d))).fx = some px ∧
    (dragendedNode (draggedNode px py (dragstartedNode d))).fy = some py ∧
    (∀ m : GNode, dragendedNode m = m) ∧
    (∀ s : SimTemp, dragendedSim false s = ⟨0⟩) :=
  ⟨rfl, rfl, fun _ => rfl, fun _ => rfl⟩

/-- Result of the detail panel's link resolution: the URL bound to the
button's click handler (none when cleared) and its disabled flag. -/
structure LinkAction where
  href : Option String
  disabled : Bool
deriving DecidableEq, Repr

/-- Link resolution of `showNodeDetails`:
`const linkToOpen = (node.links?.publications?.[0] || node.links?.datasets?.[0])`,
then either `onclick = open(linkToOpen); disabled = false` or
`onclick = null; disabled = true`. -/
def resolveLinkAction (n : GNode) : LinkAction :=
  let pubs0 := n.links.publications.bind List.head?
  let dats0 := n.links.datasets.bind List.head?
  let linkToOpen := jsOrStr pubs0 dats0
  if strTruthy linkToOpen then ⟨linkToOpen, false⟩ else ⟨none, true⟩

/-- Modelled from the spec's words, for comparison only: existence-based
resolution — "the first entry of links.publications when that exists,
otherwise the first entry of links.datasets, otherwise disabled" —
ignoring JavaScript truthiness. -/
def claimedLinkAction (n : GNode) : LinkAction :=
  match n.links.publications.bind List.head? with
  | some u => ⟨some u, false⟩
  | none =>
    match n.links.datasets.bind List.head? with
    | some v => ⟨some v, false⟩
    | none => ⟨none, true⟩

/-- Fixture: a node whose first publications entry exists but is the empty
string, with a non-empty datasets entry. -/
def emptyPubNode : GNode :=
  { mkNode "n" "A" with links := ⟨some [""], some ["https://x"], none⟩ }

/-- Counterexample to C8 as stated: the first publications entry of
`emptyPubNode` exists (it is `""`), yet the code resolves the link to the
first datasets entry, because `||` tests truthiness, not existence. -/
theorem link_action_counterexample :
    emptyPubNode.links.publications.bind List.head? = some "" ∧
    resolveLinkAction emptyPubNode = ⟨some "https://x", false⟩ ∧
    resolveLinkAction emptyPubNode ≠ claimedLinkAction emptyPubNode := by
  refine ⟨rfl, rfl, ?_⟩
  decide

/-- C8 (amended): the detail view's external-link action resolves to the
first entry of links.publications when that entry is a non-empty string,
otherwise to the first entry of links.datasets when that is a non-empty
string, and otherwise the action is disabled — handler cleared and
disabled flag set — rather than omitted or raising an error. -/
theorem link_action_spec (n : GNode) :
    (∀ u : String, n.links.publications.bind List.head? = some u → u ≠ "" →
        resolveLinkAction n = ⟨some u, false⟩) ∧
    (strTruthy (n.links.publications.bind List.head?) = false →
      ∀ v : String, n.links.datasets.bind List.head? = some v → v ≠ "" →
        resolveLinkAction n = ⟨some v, false⟩) ∧
    (strTruthy (n.links.publications.bind List.head?) = false →
      strTruthy (n.links.datasets.bind List.head?) = false →
        resolveLinkAction n = ⟨none, true⟩) := by
  refine ⟨?_, ?_, ?_⟩
  · intro u hu hne
    simp [resolveLinkAction, jsOrStr, hu, strTruthy, hne]
  · intro hp v hv hne
    simp only [resolveLinkAction, jsOrStr, hp, hv]
    simp [strTruthy, hne]
  · intro hp hd
    simp only [resolveLinkAction, jsOrStr, hp, hd]
    simp [hd]

/-- Witness for `link_action_spec`: on `emptyPubNode` the fallback branch
fires and yields the enabled datasets link. -/
theorem link_action_spec_witness :
    strTruthy (emptyPubNode.links.publications.bind List.head?) = false ∧
    resolveLinkAction emptyPubNode = ⟨some "https://x", false⟩ :=
  ⟨by decide,
    (link_action_spec emptyPubNode).2.1 (by decide) "https://x" (by decide)
      (by decide)⟩

end SpaceBioLens
